import Mathlib

/-!
Verification development for `promised-handlebars`: a wrapper that lets a
synchronous string-templating engine (Handlebars) support helper functions
returning promises.  The repository snapshot contains only the README and an
example; the implementation module itself is absent, so the definitions below
are modelled from the specification (each doc comment says what is modelled).
Machine integers do not occur; all state (the pending-value ledger) is passed
explicitly; fallible code returns `Except`; asynchrony is modelled by the
settled outcome of each future (real-time ordering is out of scope and, per the
spec, never affects the substituted output).
-/

namespace PromisedHB

/-- Modelled from the spec (§3 Resolved Value Map, §6 escaping convention):
a plain (non-future) helper value — an ordinary string, subject to the
engine's HTML escaping, or a pre-escaped "safe" string that bypasses it.
Stands in for the missing implementation module of this repository. -/
inductive PlainVal where
  | str (s : String)
  | safe (s : String)
  deriving DecidableEq, Repr

/-- Modelled from the spec (Glossary "future-like value", §5): a future is
consumed only through its settled outcome — it either resolves with a value or
rejects with a cause.  Scheduling/real time is out of scope (§5: substitution
is order-independent), so the settled view is sufficient. -/
inductive Future (α : Type) where
  | resolved (a : α)
  | rejected (err : String)
  deriving DecidableEq, Repr

/-- Modelled from the spec: promise chaining (`.then`); a rejected future
short-circuits. -/
def Future.bind {α β : Type} : Future α → (α → Future β) → Future β
  | .resolved a, f => f a
  | .rejected e, _ => .rejected e

/-- Modelled from the spec: mapping over a future's resolved value. -/
def Future.map {α β : Type} (f : α → β) : Future α → Future β
  | .resolved a => .resolved (f a)
  | .rejected e => .rejected e

/-- Modelled from the spec (§3 Ledger): the per-render-pass ordered, append-only
sequence of pending futures, indexed by insertion position. -/
abbrev Ledger := List (Future PlainVal)

/-- Modelled from the spec (§6): the raw result of a user helper — either a
plain value or a future of one. -/
inductive HelperRet where
  | plain (v : PlainVal)
  | prom (f : Future PlainVal)
  deriving DecidableEq, Repr

/-- Modelled from the spec (§6): input data for one render, a flat mapping from
variable names (dotted paths kept as flat keys) to strings. -/
abbrev Data := List (String × String)

/-- Modelled from the spec (§6): context variable lookup; a missing variable
renders as the empty string, as in the host engine. -/
def lookupData : Data → String → String
  | [], _ => ""
  | (k, v) :: rest, n => if k = n then v else lookupData rest n

/-- Modelled from the spec (§4.4, §6): the observable behaviour of a user block
helper, i.e. what it does with `options.fn` / `options.inverse`:
return a value directly, call the content (or else-content) function
synchronously with a context, or call the content function from inside a
promise continuation once a future context resolves (the README's `weather`
helper). -/
inductive BlockAct where
  | ret (r : HelperRet)
  | callFnSync (ctx : Data)
  | callInvSync (ctx : Data)
  | callFnAsync (fctx : Future Data)

/-- Modelled from the spec (§4.2 register): appending a future to the active
ledger returns its stable index — its position of insertion. -/
def register (led : Ledger) (fp : Future PlainVal) : Nat × Ledger :=
  (led.length, led ++ [fp])

/- ### Placeholder codec -/

/-- Modelled from the spec (§4.1, README "How it works"): the default reserved
marker character, `\u0001`. -/
def defaultPlaceholder : Char := Char.ofNat 1

/-- Decimal digit character for a value `0 ≤ d ≤ 9` (`9` also absorbs the
unreachable `d ≥ 10` case). -/
def digitChar (d : Nat) : Char :=
  match d with
  | 0 => '0' | 1 => '1' | 2 => '2' | 3 => '3' | 4 => '4'
  | 5 => '5' | 6 => '6' | 7 => '7' | 8 => '8' | _ => '9'

/-- Fuel-driven decimal rendering: prepends the decimal digits of `n` to `acc`;
`fuel ≥ n` suffices for full unwinding. -/
def natToDecAux : Nat → Nat → List Char → List Char
  | 0, _, acc => acc
  | f + 1, n, acc => if n = 0 then acc else natToDecAux f (n / 10) (digitChar (n % 10) :: acc)

/-- The decimal digit characters of `n`, most significant first. -/
def natToDec (n : Nat) : List Char :=
  if n = 0 then ['0'] else natToDecAux n n []

/-- Numeric value of a digit list, most significant first. -/
def digitsToNat (ds : List Char) : Nat :=
  ds.foldl (fun a c => a * 10 + (c.toNat - 48)) 0

/-- Modelled from the spec (§4.1 encode): the placeholder token for ledger index
`i` — the reserved marker character, the index in decimal, and the boundary
character `>`. -/
def encode (pc : Char) (i : Nat) : String :=
  String.mk (pc :: (natToDec i ++ ['>']))

/-- Digit-accumulating tail of `decode`: consumes decimal digits and accepts
exactly when a lone `>` boundary remains after at least one digit. -/
def decDigits : List Char → Nat → Bool → Option Nat
  | ['>'], acc, true => some acc
  | c :: cs, acc, _ => if c.isDigit then decDigits cs (acc * 10 + (c.toNat - 48)) true else none
  | [], _, _ => none

/-- Modelled from the spec (§4.1): decoding a full placeholder token back to its
ledger index; anything not of the form marker-digits-boundary yields `none`. -/
def decode (pc : Char) (s : String) : Option Nat :=
  match s.data with
  | [] => none
  | c :: rest => if c = pc then decDigits rest 0 false else none

/- ### HTML escaping (the host engine's convention, spec §6) -/

/-- Modelled from the spec (§6 "HTML-escaping convention applied by the
engine"): the per-character escaping of Handlebars' `escapeExpression`. -/
def escapeChar (c : Char) : List Char :=
  if c = '&' then ['&', 'a', 'm', 'p', ';']
  else if c = '<' then ['&', 'l', 't', ';']
  else if c = '>' then ['&', 'g', 't', ';']
  else if c = '"' then ['&', 'q', 'u', 'o', 't', ';']
  else if c = Char.ofNat 39 then ['&', '#', 'x', '2', '7', ';']
  else if c = Char.ofNat 96 then ['&', '#', 'x', '6', '0', ';']
  else if c = '=' then ['&', '#', 'x', '3', 'D', ';']
  else [c]

/-- Modelled from the spec (§6): the engine's HTML escaping of a whole string. -/
def escapeExpression (s : String) : String :=
  String.mk (s.data.map escapeChar).flatten

/-- String form of a plain value (safe strings carry their text unchanged). -/
def strOf : PlainVal → String
  | .str s => s
  | .safe s => s

/-- Modelled from the spec (§4.5 Substituting): the string inserted for a
resolved value at an occurrence whose recorded escape-state is "escaped":
default HTML-escaping applies unless the value is a pre-escaped safe value. -/
def escVal : PlainVal → String
  | .str s => escapeExpression s
  | .safe s => s

/-- Modelled from the spec (§6): how the synchronous engine embeds a plain
helper/variable value: escaped at a default (double-brace) position, raw at a
triple-brace position, and safe values always raw. -/
def emitPlain (esc : Bool) (v : PlainVal) : String :=
  match v with
  | .str s => if esc then escapeExpression s else s
  | .safe s => s

/- ### Post-render substitution scan -/

/-- State of the left-to-right placeholder scanner: outside any token, inside
the digit run (digits collected so far), or partway through an `&gt;` escaped
boundary after the digit run. -/
inductive SubMode where
  | scan
  | digs (ds : List Char)
  | e1 (ds : List Char)
  | e2 (ds : List Char)
  | e3 (ds : List Char)

/-- Literal text represented by an unfinished scanner state — flushed verbatim
when the scan cannot complete a token (malformed occurrences are emitted as
literal text, spec §4.1). -/
def litOf (pc : Char) : SubMode → List Char
  | .scan => []
  | .digs ds => pc :: ds
  | .e1 ds => pc :: (ds ++ ['&'])
  | .e2 ds => pc :: (ds ++ ['&', 'g'])
  | .e3 ds => pc :: (ds ++ ['&', 'g', 't'])

/-- Modelled from the spec (§4.5): the replacement for one complete placeholder
occurrence: the resolved value's string form, HTML-escaped exactly when the
occurrence's boundary was found in escaped form; an index with no registered
value is treated like a malformed occurrence (literal text). -/
def subValue (vals : List PlainVal) (pc : Char) (ds : List Char) (esc : Bool) : List Char :=
  match vals[digitsToNat ds]? with
  | some v => (if esc then escVal v else strOf v).data
  | none => pc :: (ds ++ (if esc then ['&', 'g', 't', ';'] else ['>']))

/-- Modelled from the spec (§4.1 scan, §4.5 Substituting): single left-to-right
pass replacing every well-formed placeholder occurrence
(marker, decimal digits, then `>` or `&gt;`) by its resolved value; malformed
occurrences fall back to literal text, and inserted values are never rescanned. -/
def substAux (pc : Char) (vals : List PlainVal) : SubMode → List Char → List Char
  | m, [] => litOf pc m
  | .scan, c :: cs =>
    if c = pc then substAux pc vals (.digs []) cs
    else c :: substAux pc vals .scan cs
  | .digs ds, c :: cs =>
    if c.isDigit then substAux pc vals (.digs (ds ++ [c])) cs
    else if ds.isEmpty then
      pc :: (if c = pc then substAux pc vals (.digs []) cs else c :: substAux pc vals .scan cs)
    else if c = '>' then subValue vals pc ds false ++ substAux pc vals .scan cs
    else if c = '&' then substAux pc vals (.e1 ds) cs
    else litOf pc (.digs ds) ++
      (if c = pc then substAux pc vals (.digs []) cs else c :: substAux pc vals .scan cs)
  | .e1 ds, c :: cs =>
    if c = 'g' then substAux pc vals (.e2 ds) cs
    else litOf pc (.e1 ds) ++
      (if c = pc then substAux pc vals (.digs []) cs else c :: substAux pc vals .scan cs)
  | .e2 ds, c :: cs =>
    if c = 't' then substAux pc vals (.e3 ds) cs
    else litOf pc (.e2 ds) ++
      (if c = pc then substAux pc vals (.digs []) cs else c :: substAux pc vals .scan cs)
  | .e3 ds, c :: cs =>
    if c = ';' then subValue vals pc ds true ++ substAux pc vals .scan cs
    else litOf pc (.e3 ds) ++
      (if c = pc then substAux pc vals (.digs []) cs else c :: substAux pc vals .scan cs)

/-- Modelled from the spec (§4.5): placeholder substitution over the rendered
output string. -/
def substitute (pc : Char) (vals : List PlainVal) (s : String) : String :=
  String.mk (substAux pc vals .scan s.data)

/- ### Template AST -/

/-- Modelled from the spec (§6, README "Helper arguments"): one helper argument —
a literal value, a context-variable reference, or a nested (sub-expression)
helper call whose own arguments pair an optional hash-key name with an
argument. -/
inductive Arg where
  | lit (v : PlainVal)
  | varg (n : String)
  | sub (nm : String) (args : List (Option String × Arg))

/-- Modelled from the spec (§6, §2): the template constructs the protocol must
propagate through — literal text, a `{{x}}` / `{{{x}}}` variable tag, a helper
mustache, a block helper with content and else-content, and a `{{> p}}`
invocation of a registered sub-template. -/
inductive Node where
  | text (s : String)
  | vtag (n : String) (esc : Bool)
  | hcall (nm : String) (args : List (Option String × Arg)) (esc : Bool)
  | block (nm : String) (args : List (Option String × Arg)) (content : List Node)
      (inv : List Node)
  | pcall (nm : String)

/-- Modelled from the spec (§6 registration surface): the registered helpers
(receiving resolved argument values, optionally keyed), the registered block
helpers (receiving the current context and resolved values, expressed through
`BlockAct`), the registered sub-templates invoked by `Node.pcall`, and the
reserved placeholder character in effect. -/
structure Env where
  helpers : String → Option (List (Option String × PlainVal) → HelperRet)
  blockHelpers : String → Option (Data → List (Option String × PlainVal) → BlockAct)
  parts : String → Option (List Node)
  pc : Char

/- ### Pending-value fan-in, interception and the call-site guard -/

/-- Modelled from the spec (§4.2 settleAll, §7): waits on every registered
future of one ledger; fail-fast — the first rejection (in registration order)
fails the whole settlement, no partial result is kept. -/
def settleAll : Ledger → Except String (List PlainVal)
  | [] => .ok []
  | .rejected e :: _ => .error e
  | .resolved v :: rest =>
    match settleAll rest with
    | .error e => .error e
    | .ok vs => .ok (v :: vs)

/-- Flattening view of a helper result as a future (a helper returning a plain
value is a trivially resolved future; a promise is taken as-is, as `.then`
chaining flattens). -/
def retToFuture : HelperRet → Future PlainVal
  | .plain v => .resolved v
  | .prom f => f

/-- Checks whether an evaluated argument list contains no futures, returning
the plain values when so. -/
def allPlain : List (Option String × HelperRet) → Option (List (Option String × PlainVal))
  | [] => some []
  | (nm, .plain v) :: rest =>
    match allPlain rest with
    | some vs => some ((nm, v) :: vs)
    | none => none
  | (_, .prom _) :: _ => none

/-- Modelled from the spec (README "Helper arguments need to be resolved before
running the actual helper"): the fan-in over an evaluated argument list — all
arguments resolved in order, fail-fast on the first rejection. -/
def settleArgList : List (Option String × HelperRet) → Future (List (Option String × PlainVal))
  | [] => .resolved []
  | (nm, r) :: rest =>
    Future.bind (retToFuture r) fun v =>
      Future.map (fun vs => (nm, v) :: vs) (settleArgList rest)

/-- Modelled from the spec (§4.4, README): the wrapped invocation of a user
helper: when no argument is a future the helper runs immediately on the plain
values; otherwise a future is returned that resolves every argument first and
only then runs the helper, flattening a promise result. -/
def runHelper (h : List (Option String × PlainVal) → HelperRet)
    (vs : List (Option String × HelperRet)) : HelperRet :=
  match allPlain vs with
  | some vals => h vals
  | none => .prom (Future.bind (settleArgList vs) fun vals => retToFuture (h vals))

/-- Modelled from the spec (§4.5): the orchestrator's tail — the synchronous
render's outcome is turned into the pass's future: a synchronous failure
rejects immediately (no future is awaited), otherwise the ledger is settled
(fail-fast) and the placeholders in the rendered string are substituted. -/
def finalize (pc : Char) (res : Except String (String × Ledger)) : Future String :=
  match res with
  | .error e => .rejected e
  | .ok (s, led) =>
    match settleAll led with
    | .error e => .rejected e
    | .ok vals => .resolved (substitute pc vals s)

/-- Modelled from the spec (§4.4, "No active ledger" branch): a re-entrant call
occurring outside the synchronous pass opens a brand-new ledger scoped to just
this call, runs the underlying function against it, settles the new ledger,
substitutes, and yields a future of the finished string. -/
def detachedCall (pc : Char) (body : Ledger → Except String (String × Ledger)) :
    Future String :=
  finalize pc (body [])

/-- Result of a guarded re-entrant call: either the raw result of a direct
synchronous invocation (string with placeholders, plus the extended ledger) or
a future of a finished string. -/
inductive GuardOut where
  | raw (s : String) (led : Ledger)
  | fut (f : Future String)

/-- Modelled from the spec (§4.4 Call-Site Guard): the dispatch applied at every
re-entrant call site.  With an active ledger the underlying function is invoked
directly and its raw result flows back against that same ledger; with no
active ledger the call is detached — a fresh ledger is opened, settled and
substituted, and a future of the finished string is returned. -/
def callSiteGuard (pc : Char) (body : Ledger → Except String (String × Ledger)) :
    Option Ledger → Except String GuardOut
  | some led =>
    match body led with
    | .error e => .error e
    | .ok (s, led2) => .ok (.raw s led2)
  | none => .ok (.fut (detachedCall pc body))

/-- Modelled from the spec (§4.3 Value Interception Wrapper): a helper's raw
result is embedded into the output — a plain value exactly as the synchronous
engine embeds it; a future is registered in the active ledger and replaced by
its placeholder token, whose boundary character records whether the engine
escaped this occurrence. -/
def emit (pc : Char) (esc : Bool) (r : HelperRet) (led : Ledger) : String × Ledger :=
  match r with
  | .plain v => (emitPlain esc v, led)
  | .prom fp =>
    let il := register led fp
    let tok := encode pc il.1
    ((if esc then escapeExpression tok else tok), il.2)

/- ### The wrapped (placeholder-inserting) synchronous render pass -/

/-- Argument-evaluation input: a single argument or an argument list. -/
inductive ArgIn where
  | one (a : Arg)
  | many (l : List (Option String × Arg))

/-- Argument-evaluation output mirroring `ArgIn`. -/
inductive ArgOutV where
  | one (v : HelperRet)
  | many (vs : List (Option String × HelperRet))

/-- Modelled from the spec (§4.4 helper-argument evaluation): evaluation of
helper arguments during the synchronous pass.  A sub-expression helper call is
run through the same wrapped-helper mechanism, so a promise-valued argument is
passed along as a future (not stringified) for the enclosing call to resolve.
Recursion is fuel-driven (any fuel at least the argument nesting depth is
enough; exhaustion is a synchronous error). -/
def evalArgF (env : Env) : Nat → ArgIn → Data → Except String ArgOutV
  | 0, _, _ => .error "out of fuel"
  | f + 1, .one a, d =>
    match a with
    | .lit v => .ok (.one (.plain v))
    | .varg n => .ok (.one (.plain (.str (lookupData d n))))
    | .sub nm args =>
      match evalArgF env f (.many args) d with
      | .error e => .error e
      | .ok (.one _) => .error "impossible"
      | .ok (.many vs) =>
        match env.helpers nm with
        | none => .error ("Missing helper: " ++ nm)
        | some h => .ok (.one (runHelper h vs))
  | _ + 1, .many [], _ => .ok (.many [])
  | f + 1, .many ((nm, a) :: rest), d =>
    match evalArgF env f (.one a) d with
    | .error e => .error e
    | .ok (.many _) => .error "impossible"
    | .ok (.one v) =>
      match evalArgF env f (.many rest) d with
      | .error e => .error e
      | .ok (.one _) => .error "impossible"
      | .ok (.many vs) => .ok (.many ((nm, v) :: vs))

/-- Render input: a node list or a single node. -/
inductive RIn where
  | tpl (t : List Node)
  | node (n : Node)

/-- Modelled from the spec (§2 data flow, §4.3, §4.4): the wrapped engine's
synchronous single-pass render.  It threads the active ledger explicitly;
every helper result passes through the interception wrapper `emit`; block
content / else-content invocations go through `callSiteGuard` — directly (raw
result, same ledger) when invoked during this pass, detached (future of a
finished string) when invoked from a promise continuation; a `pcall`ed
sub-template is invoked as a plain nested synchronous call sharing the active
ledger, its result taken literally.  Fuel-driven (exhaustion is a synchronous
error; any fuel at least the template depth is enough). -/
def renderF (env : Env) : Nat → RIn → Data → Ledger → Except String (String × Ledger)
  | 0, _, _, _ => .error "out of fuel"
  | _ + 1, .tpl [], _, led => .ok ("", led)
  | f + 1, .tpl (n :: t), d, led =>
    match renderF env f (.node n) d led with
    | .error e => .error e
    | .ok (s1, led1) =>
      match renderF env f (.tpl t) d led1 with
      | .error e => .error e
      | .ok (s2, led2) => .ok (s1 ++ s2, led2)
  | f + 1, .node n, d, led =>
    match n with
    | .text s => .ok (s, led)
    | .vtag nm esc =>
      .ok ((if esc then escapeExpression (lookupData d nm) else lookupData d nm), led)
    | .hcall nm args esc =>
      match evalArgF env f (.many args) d with
      | .error e => .error e
      | .ok (.one _) => .error "impossible"
      | .ok (.many vs) =>
        match env.helpers nm with
        | none => .error ("Missing helper: " ++ nm)
        | some h => .ok (emit env.pc esc (runHelper h vs) led)
    | .block nm args content inv =>
      match evalArgF env f (.many args) d with
      | .error e => .error e
      | .ok (.one _) => .error "impossible"
      | .ok (.many vs) =>
        match env.blockHelpers nm with
        | none => .error ("Missing block helper: " ++ nm)
        | some bh =>
          match allPlain vs with
          | some vals =>
            match bh d vals with
            | .ret r => .ok (emit env.pc false r led)
            | .callFnSync ctx =>
              match callSiteGuard env.pc (fun l => renderF env f (.tpl content) ctx l)
                  (some led) with
              | .error e => .error e
              | .ok (.fut _) => .error "impossible"
              | .ok (.raw s led2) => .ok (emit env.pc false (.plain (.str s)) led2)
            | .callInvSync ctx =>
              match callSiteGuard env.pc (fun l => renderF env f (.tpl inv) ctx l)
                  (some led) with
              | .error e => .error e
              | .ok (.fut _) => .error "impossible"
              | .ok (.raw s led2) => .ok (emit env.pc false (.plain (.str s)) led2)
            | .callFnAsync fctx =>
              .ok (emit env.pc false
                (.prom (Future.bind fctx fun ctx =>
                  Future.map PlainVal.str
                    (detachedCall env.pc (fun l => renderF env f (.tpl content) ctx l))))
                led)
          | none =>
            .ok (emit env.pc false
              (.prom (Future.bind (settleArgList vs) fun vals =>
                match bh d vals with
                | .ret r => retToFuture r
                | .callFnSync ctx =>
                  Future.map PlainVal.str
                    (detachedCall env.pc (fun l => renderF env f (.tpl content) ctx l))
                | .callInvSync ctx =>
                  Future.map PlainVal.str
                    (detachedCall env.pc (fun l => renderF env f (.tpl inv) ctx l))
                | .callFnAsync fctx =>
                  Future.bind fctx fun ctx =>
                    Future.map PlainVal.str
                      (detachedCall env.pc (fun l => renderF env f (.tpl content) ctx l))))
              led)
    | .pcall nm =>
      match env.parts nm with
      | none => .error ("Missing part: " ++ nm)
      | some body => renderF env f (.tpl body) d led

/-- Modelled from the spec (§4.5 Render Orchestrator): one full render pass of
the compiled template function: open a fresh empty ledger, run the synchronous
render, then settle and substitute; the result is always delivered as a
future. -/
def asyncRender (env : Env) (fuel : Nat) (t : List Node) (d : Data) : Future String :=
  finalize env.pc (renderF env fuel (.tpl t) d [])

/- ### The unwrapped synchronous engine (refinement reference)

For the refinement claim the following definitions follow the spec's words for
the external collaborator (§6: `compile(source) -> renderFn` with
`renderFn(data) -> string` purely synchronous, helpers receiving resolved
arguments, block content functions returning strings synchronously, the HTML
escaping convention).  They deliberately know nothing about ledgers or
placeholders; any future-valued helper result is a synchronous error, since the
unwrapped engine has no contract for it. -/

/-- Sync-engine argument-evaluation output mirroring `ArgIn`. -/
inductive SArgOut where
  | one (v : PlainVal)
  | many (vs : List (Option String × PlainVal))

/-- Follows the spec's words (§6): the unwrapped engine's helper-argument
evaluation — sub-expression helpers run immediately and must produce plain
values. -/
def syncArgF (env : Env) : Nat → ArgIn → Data → Except String SArgOut
  | 0, _, _ => .error "out of fuel"
  | f + 1, .one a, d =>
    match a with
    | .lit v => .ok (.one v)
    | .varg n => .ok (.one (.str (lookupData d n)))
    | .sub nm args =>
      match syncArgF env f (.many args) d with
      | .error e => .error e
      | .ok (.one _) => .error "impossible"
      | .ok (.many vs) =>
        match env.helpers nm with
        | none => .error ("Missing helper: " ++ nm)
        | some h =>
          match h vs with
          | .plain v => .ok (.one v)
          | .prom _ => .error "async helper in sync engine"
  | _ + 1, .many [], _ => .ok (.many [])
  | f + 1, .many ((nm, a) :: rest), d =>
    match syncArgF env f (.one a) d with
    | .error e => .error e
    | .ok (.many _) => .error "impossible"
    | .ok (.one v) =>
      match syncArgF env f (.many rest) d with
      | .error e => .error e
      | .ok (.one _) => .error "impossible"
      | .ok (.many vs) => .ok (.many ((nm, v) :: vs))

/-- Follows the spec's words (§6): the unwrapped engine's purely synchronous
render — no ledger, no placeholders; helper values are embedded under the
engine's escaping rule; block content functions are called synchronously and
return strings; sub-templates are nested synchronous renders. -/
def syncF (env : Env) : Nat → RIn → Data → Except String String
  | 0, _, _ => .error "out of fuel"
  | _ + 1, .tpl [], _ => .ok ""
  | f + 1, .tpl (n :: t), d =>
    match syncF env f (.node n) d with
    | .error e => .error e
    | .ok s1 =>
      match syncF env f (.tpl t) d with
      | .error e => .error e
      | .ok s2 => .ok (s1 ++ s2)
  | f + 1, .node n, d =>
    match n with
    | .text s => .ok s
    | .vtag nm esc =>
      .ok (if esc then escapeExpression (lookupData d nm) else lookupData d nm)
    | .hcall nm args esc =>
      match syncArgF env f (.many args) d with
      | .error e => .error e
      | .ok (.one _) => .error "impossible"
      | .ok (.many vs) =>
        match env.helpers nm with
        | none => .error ("Missing helper: " ++ nm)
        | some h =>
          match h vs with
          | .plain v => .ok (emitPlain esc v)
          | .prom _ => .error "async helper in sync engine"
    | .block nm args content inv =>
      match syncArgF env f (.many args) d with
      | .error e => .error e
      | .ok (.one _) => .error "impossible"
      | .ok (.many vs) =>
        match env.blockHelpers nm with
        | none => .error ("Missing block helper: " ++ nm)
        | some bh =>
          match bh d vs with
          | .ret (.plain v) => .ok (emitPlain false v)
          | .ret (.prom _) => .error "async helper in sync engine"
          | .callFnSync ctx => syncF env f (.tpl content) ctx
          | .callInvSync ctx => syncF env f (.tpl inv) ctx
          | .callFnAsync _ => .error "async helper in sync engine"
    | .pcall nm =>
      match env.parts nm with
      | none => .error ("Missing part: " ++ nm)
      | some body => syncF env f (.tpl body) d

/-- A helper environment is synchronous when every registered helper returns a
plain value on every input. -/
def SyncHelpers (env : Env) : Prop :=
  ∀ nm h, env.helpers nm = some h → ∀ vs, ∃ v, h vs = HelperRet.plain v

/-- A block-helper behaviour is synchronous when it returns a plain value or
calls its content/else-content synchronously. -/
def SyncAct : BlockAct → Prop := fun a =>
  match a with
  | .ret (.plain _) => True
  | .callFnSync _ => True
  | .callInvSync _ => True
  | _ => False

/-- A template environment with no asynchronous helpers: every helper result is
plain and every block helper acts synchronously. -/
def EnvSync (env : Env) : Prop :=
  SyncHelpers env ∧
  ∀ nm b, env.blockHelpers nm = some b → ∀ d vs, SyncAct (b d vs)

/- ### The wrap entry point and its options -/

/-- Modelled from the spec (§6, Design Notes): the future capability consumed
by the orchestrator — the fan-in combinator waiting on a whole ledger
(fail-fast). -/
structure PromiseCap where
  all : Ledger → Except String (List PlainVal)

/-- Modelled from the spec (§6) and `examples/example.js`: a value appearing in
the `wrap` options object — a replacement placeholder character or a promise
implementation capability. -/
inductive OptVal where
  | ch (c : Char)
  | promImpl (cap : PromiseCap)

/-- Modelled from the spec (§6): the wrapped engine instance produced by
`wrap` — it carries the reserved marker character and the promise capability in
effect. -/
structure WrappedEngine where
  pc : Char
  cap : PromiseCap

/-- Option lookup by key name. -/
def lookupOpt : List (String × OptVal) → String → Option OptVal
  | [], _ => none
  | (k, v) :: rest, n => if k = n then some v else lookupOpt rest n

/-- Modelled from the spec (§6) and `examples/example.js`
(`promisedHandlebars(handlebars, { Promise: Q.Promise })`): the exposed entry
point.  The options object recognises `placeholderChar` (overriding the
default reserved marker `\u0001`) and — as the example shows — the key
`Promise` for the promise implementation (the spec's name
`PromiseImplementation` is not a recognised key); unrecognised keys are
ignored and defaults apply. -/
def wrap (opts : List (String × OptVal)) : WrappedEngine :=
  { pc :=
      match lookupOpt opts "placeholderChar" with
      | some (.ch c) => c
      | _ => defaultPlaceholder
    cap :=
      match lookupOpt opts "Promise" with
      | some (.promImpl cap) => cap
      | _ => ⟨settleAll⟩ }

/-- Orchestrator tail parametrised by the promise capability chosen at `wrap`
time. -/
def finalizeCap (cap : PromiseCap) (pc : Char)
    (res : Except String (String × Ledger)) : Future String :=
  match res with
  | .error e => .rejected e
  | .ok (s, led) =>
    match cap.all led with
    | .error e => .rejected e
    | .ok vals => .resolved (substitute pc vals s)

/-- Modelled from the spec (§6): a render through a wrapped engine instance
honours the instance's placeholder character and promise capability. -/
def wrapRender (w : WrappedEngine) (env : Env) (fuel : Nat) (t : List Node)
    (d : Data) : Future String :=
  finalizeCap w.cap w.pc (renderF { env with pc := w.pc } fuel (.tpl t) d [])

/- ### The ambient active-ledger slot -/

/-- Modelled from the spec (§5 shared-resource policy): the render pass driven
through the process-wide "active ledger" slot.  Each invocation opens its own
fresh ledger (never reusing whatever the slot held) and the slot is reset to
"no active ledger" as soon as the synchronous phase ends, before any future is
awaited. -/
def asyncRenderAmbient (env : Env) (fuel : Nat) (t : List Node) (d : Data) :
    Option Ledger → Future String × Option Ledger
  | _ =>
    match renderF env fuel (.tpl t) d [] with
    | .error e => (.rejected e, none)
    | .ok (s, led) =>
      match settleAll led with
      | .error e => (.rejected e, none)
      | .ok vals => (.resolved (substitute env.pc vals s), none)

/-- Modelled from the spec (§5, §8 scenario 5): two overlapping invocations of
the same compiled template, sequenced through the shared ambient slot. -/
def runTwo (env : Env) (fuel : Nat) (tA : List Node) (dA : Data) (tB : List Node)
    (dB : Data) (amb : Option Ledger) :
    (Future String × Future String) × Option Ledger :=
  let ra := asyncRenderAmbient env fuel tA dA amb
  let rb := asyncRenderAmbient env fuel tB dB ra.2
  ((ra.1, rb.1), rb.2)

/- ### Auxiliary definitions for the proofs and witnesses -/

/-- Embedding of sync-engine argument results into wrapped-engine ones
(every plain value is a plain helper result). -/
def liftA : SArgOut → ArgOutV
  | .one v => .one (.plain v)
  | .many vs => .many (vs.map fun p => (p.1, HelperRet.plain p.2))

/-- Concrete helper table used by the witnesses: a synchronous helper, helpers
resolving to futures, a rejecting helper, and a helper echoing its first
argument. -/
def sampleHelpers : String → Option (List (Option String × PlainVal) → HelperRet) :=
  fun nm =>
    if nm = "syncS" then some (fun _ => .plain (.str "S"))
    else if nm = "asyncX" then some (fun _ => .prom (.resolved (.str "X")))
    else if nm = "asyncAmp" then some (fun _ => .prom (.resolved (.str "a<b")))
    else if nm = "bad" then some (fun _ => .prom (.rejected "boom"))
    else if nm = "first" then
      some (fun vs => .plain (match vs with | (_, v) :: _ => v | [] => .str ""))
    else none

/-- Concrete block-helper table used by the witnesses: a conditional-style
builtin calling its content synchronously, and a `weather`-style helper calling
its content from a promise continuation. -/
def sampleBlocks : String → Option (Data → List (Option String × PlainVal) → BlockAct) :=
  fun nm =>
    if nm = "ifS" then some (fun d _ => .callFnSync d)
    else if nm = "weather" then
      some (fun _ _ => .callFnAsync (.resolved [("main.temp", "15.99")]))
    else none

/-- Concrete sub-template table used by the witnesses: a sub-template whose body
calls an asynchronous helper. -/
def sampleParts : String → Option (List Node) :=
  fun nm => if nm = "p" then some [Node.hcall "asyncX" [] true] else none

/-- Concrete environment used by the witnesses. -/
def sampleEnv : Env :=
  { helpers := sampleHelpers
    blockHelpers := sampleBlocks
    parts := sampleParts
    pc := defaultPlaceholder }

/-- Helper table with no asynchronous helpers, for the refinement witnesses. -/
def syncSampleHelpers : String → Option (List (Option String × PlainVal) → HelperRet) :=
  fun nm =>
    if nm = "syncS" then some (fun _ => .plain (.str "S&"))
    else if nm = "asyncAmp" then some (fun _ => .plain (.str "a<b"))
    else none

/-- Block-helper table with only synchronous behaviour, for the refinement
witnesses. -/
def syncSampleBlocks : String → Option (Data → List (Option String × PlainVal) → BlockAct) :=
  fun nm => if nm = "ifS" then some (fun d _ => .callFnSync d) else none

/-- Fully synchronous environment used by the refinement witnesses. -/
def syncSampleEnv : Env :=
  { helpers := syncSampleHelpers
    blockHelpers := syncSampleBlocks
    parts := fun _ => none
    pc := defaultPlaceholder }

/- ### Lemmas: the decimal codec -/

theorem digitChar_isDigit (d : Nat) (h : d < 10) : (digitChar d).isDigit := by
  interval_cases d <;> decide

theorem digitChar_val (d : Nat) (h : d < 10) : (digitChar d).toNat - 48 = d := by
  interval_cases d <;> decide

theorem natToDecAux_foldl (f : Nat) :
    ∀ n acc, n ≤ f →
      digitsToNat (natToDecAux f n acc) =
        acc.foldl (fun a c => a * 10 + (c.toNat - 48)) n := by
  induction f with
  | zero =>
    intro n acc h
    interval_cases n
    rfl
  | succ f ih =>
    intro n acc h
    by_cases h0 : n = 0
    · subst h0
      simp [natToDecAux, digitsToNat]
    · rw [natToDecAux, if_neg h0]
      have hdiv : n / 10 ≤ f := by
        have := Nat.div_lt_self (Nat.pos_of_ne_zero h0) (by norm_num : (1:Nat) < 10)
        omega
      rw [ih (n / 10) _ hdiv]
      simp only [List.foldl_cons]
      rw [digitChar_val (n % 10) (Nat.mod_lt n (by norm_num))]
      have := Nat.div_add_mod n 10
      have heq : n / 10 * 10 + n % 10 = n := by omega
      rw [heq]

theorem digitsToNat_natToDec (n : Nat) : digitsToNat (natToDec n) = n := by
  unfold natToDec
  by_cases h0 : n = 0
  · subst h0; rfl
  · rw [if_neg h0]
    rw [natToDecAux_foldl n n [] (le_refl n)]
    rfl

theorem natToDecAux_digits (f : Nat) :
    ∀ n acc, (∀ c ∈ acc, c.isDigit) → ∀ c ∈ natToDecAux f n acc, c.isDigit := by
  induction f with
  | zero =>
    intro n acc hacc
    simpa [natToDecAux] using hacc
  | succ f ih =>
    intro n acc hacc
    rw [natToDecAux]
    by_cases h0 : n = 0
    · rw [if_pos h0]; exact hacc
    · rw [if_neg h0]
      apply ih
      intro c hc
      rcases List.mem_cons.mp hc with h | h
      · subst h
        exact digitChar_isDigit (n % 10) (Nat.mod_lt n (by omega))
      · exact hacc c h

theorem natToDec_digits (n : Nat) : ∀ c ∈ natToDec n, c.isDigit := by
  unfold natToDec
  by_cases h0 : n = 0
  · rw [if_pos h0]; intro c hc; simp at hc; subst hc; decide
  · rw [if_neg h0]
    exact natToDecAux_digits n n [] (by intro c hc; simp at hc)

theorem natToDecAux_ne_nil (f : Nat) :
    ∀ n acc, acc ≠ [] → natToDecAux f n acc ≠ [] := by
  induction f with
  | zero => intro n acc h; simpa [natToDecAux] using h
  | succ f ih =>
    intro n acc h
    rw [natToDecAux]
    by_cases h0 : n = 0
    · rw [if_pos h0]; exact h
    · rw [if_neg h0]
      exact ih (n / 10) _ (by simp)

theorem natToDec_ne_nil (n : Nat) : natToDec n ≠ [] := by
  unfold natToDec
  by_cases h0 : n = 0
  · rw [if_pos h0]; simp
  · rw [if_neg h0]
    match n, h0 with
    | m + 1, h0 =>
      rw [natToDecAux, if_neg h0]
      exact natToDecAux_ne_nil m _ _ (by simp)

theorem decDigits_digits :
    ∀ (ds : List Char), ds ≠ [] → (∀ c ∈ ds, c.isDigit) →
      ∀ acc b, decDigits (ds ++ ['>']) acc b =
        some (ds.foldl (fun a c => a * 10 + (c.toNat - 48)) acc) := by
  intro ds
  induction ds with
  | nil => intro h; exact absurd rfl h
  | cons c cs ih =>
    intro _ hd acc b
    have hc : c.isDigit := hd c (by simp)
    match cs with
    | [] =>
      simp only [List.cons_append, List.nil_append]
      rw [decDigits]
      · rw [if_pos hc]; rfl
      · intro _ h _; exact absurd h (by simp)
    | c2 :: cs2 =>
      simp only [List.cons_append]
      rw [decDigits]
      · rw [if_pos hc]
        rw [← List.cons_append]
        rw [ih (by simp) (fun x hx => hd x (List.mem_cons_of_mem c hx)) _ true]
        rfl
      · intro _ h _; exact absurd h (by simp)

theorem substAux_nil_vals (pc : Char) :
    ∀ (cs : List Char) (m : SubMode), substAux pc [] m cs = litOf pc m ++ cs := by
  intro cs
  induction cs with
  | nil => intro m; simp [substAux]
  | cons c cs ih =>
    intro m
    cases m with
    | scan =>
      rw [substAux]
      by_cases h : c = pc
      · rw [if_pos h, ih]; simp [litOf, h]
      · rw [if_neg h, ih]; simp [litOf]
    | digs ds =>
      rw [substAux]
      by_cases hdig : c.isDigit
      · rw [if_pos hdig, ih]; simp [litOf]
      · rw [if_neg hdig]
        cases ds with
        | nil =>
          rw [if_pos (by decide : ([] : List Char).isEmpty = true)]
          by_cases h : c = pc
          · rw [if_pos h, ih]; simp [litOf, h]
          · rw [if_neg h, ih]; simp [litOf]
        | cons d0 ds0 =>
          rw [if_neg (by simp [List.isEmpty])]
          by_cases hgt : c = '>'
          · rw [if_pos hgt, ih]; simp [litOf, subValue, hgt]
          · rw [if_neg hgt]
            by_cases hamp : c = '&'
            · rw [if_pos hamp, ih]; simp [litOf, hamp]
            · rw [if_neg hamp]
              by_cases h : c = pc
              · rw [if_pos h, ih]; simp [litOf, h]
              · rw [if_neg h, ih]; simp [litOf]
    | e1 ds =>
      rw [substAux]
      by_cases hg : c = 'g'
      · rw [if_pos hg, ih]; simp [litOf, hg]
      · rw [if_neg hg]
        by_cases h : c = pc
        · rw [if_pos h, ih]; simp [litOf, h]
        · rw [if_neg h, ih]; simp [litOf]
    | e2 ds =>
      rw [substAux]
      by_cases ht : c = 't'
      · rw [if_pos ht, ih]; simp [litOf, ht]
      · rw [if_neg ht]
        by_cases h : c = pc
        · rw [if_pos h, ih]; simp [litOf, h]
        · rw [if_neg h, ih]; simp [litOf]
    | e3 ds =>
      rw [substAux]
      by_cases hsc : c = ';'
      · rw [if_pos hsc, ih]; simp [litOf, subValue, hsc]
      · rw [if_neg hsc]
        by_cases h : c = pc
        · rw [if_pos h, ih]; simp [litOf, h]
        · rw [if_neg h, ih]; simp [litOf]

theorem substitute_nil (pc : Char) (s : String) : substitute pc [] s = s := by
  unfold substitute
  rw [substAux_nil_vals pc s.data .scan]
  rfl

theorem substAux_digits (pc : Char) (vals : List PlainVal) :
    ∀ (ds : List Char), (∀ c ∈ ds, c.isDigit) →
      ∀ ds0 tail, substAux pc vals (.digs ds0) (ds ++ tail) =
        substAux pc vals (.digs (ds0 ++ ds)) tail := by
  intro ds
  induction ds with
  | nil => intro _ ds0 tail; simp
  | cons c cs ih =>
    intro hds ds0 tail
    have hc : c.isDigit := hds c (by simp)
    rw [List.cons_append, substAux, if_pos hc]
    rw [ih (fun x hx => hds x (List.mem_cons_of_mem c hx)) (ds0 ++ [c]) tail]
    simp

theorem substAux_token (pc : Char) (vals : List PlainVal) (i : Nat) (v : PlainVal)
    (hv : vals[i]? = some v) (rest : List Char) :
    substAux pc vals .scan (pc :: (natToDec i ++ ('>' :: rest))) =
      (strOf v).data ++ substAux pc vals .scan rest := by
  rw [substAux, if_pos rfl]
  rw [substAux_digits pc vals (natToDec i) (natToDec_digits i) [] ('>' :: rest)]
  have hne : (natToDec i).isEmpty = false := by
    simp [List.isEmpty_iff, natToDec_ne_nil i]
  have hd : ('>'.isDigit) = false := by decide
  rw [substAux]
  simp [hne, hd, subValue, digitsToNat_natToDec i, hv]

theorem substAux_token_esc (pc : Char) (vals : List PlainVal) (i : Nat) (v : PlainVal)
    (hv : vals[i]? = some v) (rest : List Char) :
    substAux pc vals .scan (pc :: (natToDec i ++ ('&' :: 'g' :: 't' :: ';' :: rest))) =
      (escVal v).data ++ substAux pc vals .scan rest := by
  rw [substAux, if_pos rfl]
  rw [substAux_digits pc vals (natToDec i) (natToDec_digits i) []
    ('&' :: 'g' :: 't' :: ';' :: rest)]
  have hne : (natToDec i).isEmpty = false := by
    simp [List.isEmpty_iff, natToDec_ne_nil i]
  have hd : ('&'.isDigit) = false := by decide
  have hgtne : ('&' = '>') = False := by simp
  rw [substAux]
  simp only [List.nil_append, hne, hd, hgtne, Bool.false_eq_true, if_false]
  rw [if_pos trivial]
  rw [substAux, if_pos rfl]
  rw [substAux, if_pos rfl]
  rw [substAux, if_pos rfl]
  simp [subValue, digitsToNat_natToDec i, hv]

theorem escapeChar_digit (c : Char) (h : c.isDigit) : escapeChar c = [c] := by
  unfold escapeChar
  rw [if_neg (fun he => absurd (he ▸ h) (by decide)),
    if_neg (fun he => absurd (he ▸ h) (by decide)),
    if_neg (fun he => absurd (he ▸ h) (by decide)),
    if_neg (fun he => absurd (he ▸ h) (by decide)),
    if_neg (fun he => absurd (he ▸ h) (by decide)),
    if_neg (fun he => absurd (he ▸ h) (by decide)),
    if_neg (fun he => absurd (he ▸ h) (by decide))]

theorem flatten_map_digits (ds : List Char) (h : ∀ c ∈ ds, c.isDigit) :
    (ds.map escapeChar).flatten = ds := by
  induction ds with
  | nil => rfl
  | cons c cs ih =>
    simp only [List.map_cons, List.flatten_cons]
    rw [escapeChar_digit c (h c (by simp)), ih (fun x hx => h x (List.mem_cons_of_mem c hx))]
    rfl

theorem escapeExpression_encode (pc : Char) (hpc : escapeChar pc = [pc]) (i : Nat) :
    escapeExpression (encode pc i) =
      String.mk (pc :: (natToDec i ++ ['&', 'g', 't', ';'])) := by
  unfold escapeExpression encode
  show String.mk ((pc :: (natToDec i ++ ['>'])).map escapeChar).flatten = _
  simp only [List.map_cons, List.map_append, List.flatten_cons, List.flatten_append]
  rw [hpc, flatten_map_digits (natToDec i) (natToDec_digits i)]
  rfl

theorem decode_encode (pc : Char) (i : Nat) : decode pc (encode pc i) = some i := by
  have h : decode pc (encode pc i) = decDigits (natToDec i ++ ['>']) 0 false := by
    unfold decode encode
    simp
  rw [h, decDigits_digits (natToDec i) (natToDec_ne_nil i) (natToDec_digits i) 0 false]
  have h2 := digitsToNat_natToDec i
  unfold digitsToNat at h2
  rw [h2]

/- ### Lemmas: refinement to the synchronous engine -/

theorem allPlain_lift (vs : List (Option String × PlainVal)) :
    allPlain (vs.map fun p => (p.1, HelperRet.plain p.2)) = some vs := by
  induction vs with
  | nil => rfl
  | cons p rest ih =>
    cases p
    simp [allPlain, ih]

theorem evalArgF_sync (env : Env) (hs : SyncHelpers env) :
    ∀ f i d, evalArgF env f i d = Except.map liftA (syncArgF env f i d) := by
  intro f
  induction f with
  | zero => intro i d; rfl
  | succ f ih =>
    intro i d
    match i with
    | .one a =>
      match a with
      | .lit v => rfl
      | .varg n => rfl
      | .sub nm args =>
        simp only [evalArgF, syncArgF]
        rw [ih (.many args) d]
        cases hsync : syncArgF env f (.many args) d with
        | error e => rfl
        | ok o =>
          cases o with
          | one v => rfl
          | many vs =>
            simp only [Except.map, liftA]
            cases hh : env.helpers nm with
            | none => rfl
            | some h =>
              obtain ⟨v, hv⟩ := hs nm h hh vs
              simp [runHelper, allPlain_lift, hv]
    | .many [] => rfl
    | .many ((nm, a) :: rest) =>
      simp only [evalArgF, syncArgF]
      rw [ih (.one a) d, ih (.many rest) d]
      cases h1 : syncArgF env f (.one a) d with
      | error e => rfl
      | ok o1 =>
        cases o1 with
        | many vs => rfl
        | one v =>
          cases h2 : syncArgF env f (.many rest) d with
          | error e => rfl
          | ok o2 =>
            cases o2 with
            | one v2 => rfl
            | many vs => rfl

theorem renderF_sync (env : Env) (he : EnvSync env) :
    ∀ f i d led, renderF env f i d led =
      Except.map (fun s => (s, led)) (syncF env f i d) := by
  intro f
  induction f with
  | zero => intro i d led; rfl
  | succ f ih =>
    intro i d led
    match i with
    | .tpl [] => rfl
    | .tpl (n :: t) =>
      simp only [renderF, syncF]
      rw [ih (.node n) d led]
      cases h1 : syncF env f (.node n) d with
      | error e => rfl
      | ok s1 =>
        simp only [Except.map]
        rw [ih (.tpl t) d led]
        cases h2 : syncF env f (.tpl t) d with
        | error e => rfl
        | ok s2 => rfl
    | .node n =>
      match n with
      | .text s => rfl
      | .vtag nm esc => rfl
      | .hcall nm args esc =>
        simp only [renderF, syncF]
        rw [evalArgF_sync env he.1 f (.many args) d]
        cases h1 : syncArgF env f (.many args) d with
        | error e => rfl
        | ok o =>
          cases o with
          | one v => rfl
          | many vs =>
            simp only [Except.map, liftA]
            cases hh : env.helpers nm with
            | none => rfl
            | some h =>
              obtain ⟨v, hv⟩ := he.1 nm h hh vs
              simp [runHelper, allPlain_lift, hv, emit]
      | .block nm args content inv =>
        simp only [renderF, syncF]
        rw [evalArgF_sync env he.1 f (.many args) d]
        cases h1 : syncArgF env f (.many args) d with
        | error e => rfl
        | ok o =>
          cases o with
          | one v => rfl
          | many vs =>
            simp only [Except.map, liftA]
            cases hb : env.blockHelpers nm with
            | none => rfl
            | some bh =>
              have hact := he.2 nm bh hb d vs
              cases ha : bh d vs with
              | ret r =>
                cases r with
                | plain v => simp [allPlain_lift, ha, emit]
                | prom fp =>
                  rw [ha] at hact
                  simp [SyncAct] at hact
              | callFnSync ctx =>
                cases h2 : syncF env f (.tpl content) ctx with
                | error e =>
                  simp [allPlain_lift, ha, callSiteGuard, ih (.tpl content) ctx led, h2,
                    Except.map]
                | ok s2 =>
                  simp [allPlain_lift, ha, callSiteGuard, ih (.tpl content) ctx led, h2,
                    Except.map, emit, emitPlain]
              | callInvSync ctx =>
                cases h2 : syncF env f (.tpl inv) ctx with
                | error e =>
                  simp [allPlain_lift, ha, callSiteGuard, ih (.tpl inv) ctx led, h2,
                    Except.map]
                | ok s2 =>
                  simp [allPlain_lift, ha, callSiteGuard, ih (.tpl inv) ctx led, h2,
                    Except.map, emit, emitPlain]
              | callFnAsync fctx =>
                rw [ha] at hact
                simp [SyncAct] at hact
      | .pcall nm =>
        simp only [renderF, syncF]
        cases hp : env.parts nm with
        | none => rfl
        | some body => exact ih (.tpl body) d led

/- ### Lemmas: ledger growth and settlement -/

theorem emit_snd (pc : Char) (esc : Bool) (r : HelperRet) (led : Ledger) :
    ∃ tail, (emit pc esc r led).2 = led ++ tail := by
  cases r with
  | plain v => exact ⟨[], by simp [emit]⟩
  | prom fp => exact ⟨[fp], by simp [emit, register]⟩

theorem renderF_extends (env : Env) :
    ∀ f i d led s led2, renderF env f i d led = .ok (s, led2) →
      ∃ tail, led2 = led ++ tail := by
  intro f
  induction f with
  | zero =>
    intro i d led s led2 h
    exact absurd h (by simp [renderF])
  | succ f ih =>
    intro i d led s led2 h
    match i with
    | .tpl [] =>
      simp only [renderF] at h
      exact ⟨[], by simp_all⟩
    | .tpl (n :: t) =>
      cases h1 : renderF env f (.node n) d led with
      | error e => simp [renderF, h1] at h
      | ok p1 =>
        obtain ⟨s1, led1⟩ := p1
        cases h2 : renderF env f (.tpl t) d led1 with
        | error e => simp [renderF, h1, h2] at h
        | ok p2 =>
          obtain ⟨s2, led2'⟩ := p2
          simp only [renderF, h1, h2] at h
          obtain ⟨t1, ht1⟩ := ih (.node n) d led s1 led1 h1
          obtain ⟨t2, ht2⟩ := ih (.tpl t) d led1 s2 led2' h2
          refine ⟨t1 ++ t2, ?_⟩
          have hled : led2 = led2' := by simp_all
          rw [hled, ht2, ht1, List.append_assoc]
    | .node n =>
      match n with
      | .text s0 =>
        simp only [renderF] at h
        exact ⟨[], by simp_all⟩
      | .vtag nm esc =>
        simp only [renderF] at h
        exact ⟨[], by simp_all⟩
      | .hcall nm args esc =>
        cases h1 : evalArgF env f (.many args) d with
        | error e => simp [renderF, h1] at h
        | ok o =>
          cases o with
          | one v => simp [renderF, h1] at h
          | many vs =>
            cases hh : env.helpers nm with
            | none => simp [renderF, h1, hh] at h
            | some hfn =>
              simp only [renderF, h1, hh] at h
              obtain ⟨tl, htl⟩ := emit_snd env.pc esc (runHelper hfn vs) led
              refine ⟨tl, ?_⟩
              have hled : led2 = (emit env.pc esc (runHelper hfn vs) led).2 := by
                simp_all
              rw [hled, htl]
      | .block nm args content inv =>
        cases h1 : evalArgF env f (.many args) d with
        | error e => simp [renderF, h1] at h
        | ok o =>
          cases o with
          | one v => simp [renderF, h1] at h
          | many vs =>
            cases hb : env.blockHelpers nm with
            | none => simp [renderF, h1, hb] at h
            | some bh =>
              cases hap : allPlain vs with
              | some vals =>
                cases ha : bh d vals with
                | ret r =>
                  simp only [renderF, h1, hb, hap, ha] at h
                  obtain ⟨tl, htl⟩ := emit_snd env.pc false r led
                  refine ⟨tl, ?_⟩
                  have hled : led2 = (emit env.pc false r led).2 := by simp_all
                  rw [hled, htl]
                | callFnSync ctx =>
                  cases h2 : renderF env f (.tpl content) ctx led with
                  | error e => simp [renderF, h1, hb, hap, ha, callSiteGuard, h2] at h
                  | ok p2 =>
                    obtain ⟨s2, led2'⟩ := p2
                    simp only [renderF, h1, hb, hap, ha, callSiteGuard, h2] at h
                    obtain ⟨t2, ht2⟩ := ih (.tpl content) ctx led s2 led2' h2
                    refine ⟨t2, ?_⟩
                    have hled : led2 = led2' := by simp_all [emit, emitPlain]
                    rw [hled, ht2]
                | callInvSync ctx =>
                  cases h2 : renderF env f (.tpl inv) ctx led with
                  | error e => simp [renderF, h1, hb, hap, ha, callSiteGuard, h2] at h
                  | ok p2 =>
                    obtain ⟨s2, led2'⟩ := p2
                    simp only [renderF, h1, hb, hap, ha, callSiteGuard, h2] at h
                    obtain ⟨t2, ht2⟩ := ih (.tpl inv) ctx led s2 led2' h2
                    refine ⟨t2, ?_⟩
                    have hled : led2 = led2' := by simp_all [emit, emitPlain]
                    rw [hled, ht2]
                | callFnAsync fctx =>
                  simp only [renderF, h1, hb, hap, ha, emit, register] at h
                  injection h with h'
                  exact ⟨_, (congrArg Prod.snd h').symm⟩
              | none =>
                simp only [renderF, h1, hb, hap, emit, register] at h
                injection h with h'
                exact ⟨_, (congrArg Prod.snd h').symm⟩
      | .pcall nm =>
        cases hp : env.parts nm with
        | none => simp [renderF, hp] at h
        | some body =>
          simp only [renderF, hp] at h
          exact ih (.tpl body) d led s led2 h

theorem settleAll_mem_rejected (led : Ledger) (e : String)
    (h : Future.rejected e ∈ led) : ∃ e2, settleAll led = .error e2 := by
  induction led with
  | nil => simp at h
  | cons fp rest ih =>
    cases fp with
    | rejected e3 => exact ⟨e3, rfl⟩
    | resolved v =>
      have hmem : Future.rejected e ∈ rest := by
        rcases List.mem_cons.mp h with h' | h'
        · exact absurd h' (by simp)
        · exact h'
      obtain ⟨e2, he2⟩ := ih hmem
      exact ⟨e2, by simp [settleAll, he2]⟩

theorem envSync_syncSampleEnv : EnvSync syncSampleEnv := by
  constructor
  · intro nm h hh vs
    simp only [syncSampleEnv, syncSampleHelpers] at hh
    by_cases h1 : nm = "syncS"
    · rw [if_pos h1] at hh
      refine ⟨.str "S&", ?_⟩
      rw [← Option.some.inj hh]
    · rw [if_neg h1] at hh
      by_cases h2 : nm = "asyncAmp"
      · rw [if_pos h2] at hh
        refine ⟨.str "a<b", ?_⟩
        rw [← Option.some.inj hh]
      · rw [if_neg h2] at hh
        cases hh
  · intro nm b hb d vs
    simp only [syncSampleEnv, syncSampleBlocks] at hb
    by_cases h1 : nm = "ifS"
    · rw [if_pos h1] at hb
      rw [← Option.some.inj hb]
      trivial
    · rw [if_neg h1] at hb
      cases hb

theorem finalize_single_token (v : PlainVal) (esc : Bool) :
    finalize defaultPlaceholder
        (.ok ((if esc then escapeExpression (encode defaultPlaceholder 0)
          else encode defaultPlaceholder 0), [Future.resolved v])) =
      .resolved (if esc then escVal v else strOf v) := by
  have hget : ([v] : List PlainVal)[(0 : Nat)]? = some v := rfl
  cases esc with
  | false =>
    show Future.resolved
        (substitute defaultPlaceholder [v] (encode defaultPlaceholder 0)) =
      Future.resolved (strOf v)
    have hstep := substAux_token defaultPlaceholder [v] 0 v hget []
    unfold substitute
    rw [show (encode defaultPlaceholder 0).data =
      defaultPlaceholder :: (natToDec 0 ++ ('>' :: [])) from rfl]
    rw [hstep]
    rw [show substAux defaultPlaceholder [v] SubMode.scan [] = [] from rfl]
    rw [List.append_nil]
  | true =>
    show Future.resolved
        (substitute defaultPlaceholder [v]
          (escapeExpression (encode defaultPlaceholder 0))) =
      Future.resolved (escVal v)
    have hesc : escapeChar defaultPlaceholder = [defaultPlaceholder] := by decide
    have hstep := substAux_token_esc defaultPlaceholder [v] 0 v hget []
    rw [escapeExpression_encode defaultPlaceholder hesc 0]
    unfold substitute
    rw [show (String.mk (defaultPlaceholder ::
      (natToDec 0 ++ ['&', 'g', 't', ';']))).data =
      defaultPlaceholder :: (natToDec 0 ++ ('&' :: 'g' :: 't' :: ';' :: [])) from rfl]
    rw [hstep]
    rw [show substAux defaultPlaceholder [v] SubMode.scan [] = [] from rfl]
    rw [List.append_nil]

theorem asyncRender_hcall_async (env : Env) (nm : String) (fv : Future PlainVal)
    (esc : Bool) (d : Data) (hpc : env.pc = defaultPlaceholder)
    (hh : env.helpers nm = some (fun _ => HelperRet.prom fv)) :
    asyncRender env 9 [Node.hcall nm [] esc] d =
      match fv with
      | .rejected e => .rejected e
      | .resolved v => .resolved (if esc then escVal v else strOf v) := by
  have hr : renderF env 9 (.tpl [Node.hcall nm [] esc]) d [] =
      .ok ((if esc then escapeExpression (encode env.pc 0) else encode env.pc 0),
        [fv]) := by
    simp [renderF, evalArgF, hh, runHelper, allPlain, emit, register]
  unfold asyncRender
  rw [hr, hpc]
  cases fv with
  | rejected e => rfl
  | resolved v => exact finalize_single_token v esc

/- ### Claim theorems -/

/-- Claim C1: Call-Site Guard dichotomy.  (1) With an active ledger the
underlying function is invoked directly and its raw result passes back against
that same ledger; (2)–(3) with no active ledger the guard opens a brand-new
ledger scoped to just this call, the result is intercepted against it, the new
ledger is settled and substituted, and a future of the finished string is
returned instead of a raw or placeholder value; (4) consequently a synchronous
call through the guard returns exactly the plain string the unwrapped engine
would produce, with the ledger untouched. -/
theorem claim_C1 :
    (∀ (pc : Char) (body : Ledger → Except String (String × Ledger)) (led : Ledger),
      callSiteGuard pc body (some led) =
        match body led with
        | .error e => .error e
        | .ok (s, led2) => .ok (.raw s led2)) ∧
    (∀ pc body, callSiteGuard pc body none = .ok (.fut (detachedCall pc body))) ∧
    (∀ pc body s led vals, body [] = .ok (s, led) → settleAll led = .ok vals →
      detachedCall pc body = .resolved (substitute pc vals s)) ∧
    (∀ env f t d led s, EnvSync env → syncF env f (.tpl t) d = .ok s →
      callSiteGuard env.pc (fun l => renderF env f (.tpl t) d l) (some led) =
        .ok (.raw s led)) := by
  refine ⟨?_, ?_, ?_, ?_⟩
  · intro pc body led
    cases hb : body led with
    | error e => simp [callSiteGuard, hb]
    | ok p =>
      cases p
      simp [callSiteGuard, hb]
  · intro pc body
    rfl
  · intro pc body s led vals hb hs
    simp [detachedCall, finalize, hb, hs]
  · intro env f t d led s he hs
    have hr := renderF_sync env he f (.tpl t) d led
    simp [callSiteGuard, hr, hs, Except.map]

/-- Witness for C1 at concrete inputs: the detached branch produces the settled
and substituted future, and the active-ledger branch returns the unwrapped
engine's string with the ledger unchanged. -/
theorem claim_C1_witness :
    ((fun _ : Ledger => (Except.ok (encode defaultPlaceholder 0,
        [Future.resolved (PlainVal.str "ok")]) : Except String (String × Ledger))) [] =
      Except.ok (encode defaultPlaceholder 0,
        [Future.resolved (PlainVal.str "ok")])) ∧
    settleAll [Future.resolved (PlainVal.str "ok")] = .ok [PlainVal.str "ok"] ∧
    detachedCall defaultPlaceholder
        (fun _ => .ok (encode defaultPlaceholder 0,
          [Future.resolved (PlainVal.str "ok")])) =
      .resolved (substitute defaultPlaceholder [PlainVal.str "ok"]
        (encode defaultPlaceholder 0)) ∧
    EnvSync syncSampleEnv ∧
    syncF syncSampleEnv 3 (.tpl [Node.hcall "syncS" [] false]) [] = .ok "S&" ∧
    callSiteGuard syncSampleEnv.pc
        (fun l => renderF syncSampleEnv 3 (.tpl [Node.hcall "syncS" [] false]) [] l)
        (some [Future.resolved (PlainVal.str "z")]) =
      .ok (.raw "S&" [Future.resolved (PlainVal.str "z")]) :=
  ⟨rfl, rfl,
    claim_C1.2.2.1 defaultPlaceholder
      (fun _ => .ok (encode defaultPlaceholder 0,
        [Future.resolved (PlainVal.str "ok")]))
      (encode defaultPlaceholder 0) [Future.resolved (PlainVal.str "ok")]
      [PlainVal.str "ok"] rfl rfl,
    envSync_syncSampleEnv, rfl,
    claim_C1.2.2.2 syncSampleEnv 3 [Node.hcall "syncS" [] false] []
      [Future.resolved (PlainVal.str "z")] "S&" envSync_syncSampleEnv rfl⟩

/-- Claim C2: refinement — for every template with no asynchronous helpers
(`EnvSync`) and every input data, whenever the unwrapped synchronous engine
(`syncF`, the spec-words reference definition) produces a string, the wrapped
render resolves to exactly that string; the result is still delivered as a
future (`Future.resolved`), even though zero placeholders were inserted. -/
theorem claim_C2 (env : Env) (fuel : Nat) (t : List Node) (d : Data) (s : String)
    (he : EnvSync env) (hs : syncF env fuel (.tpl t) d = .ok s) :
    asyncRender env fuel t d = Future.resolved s := by
  unfold asyncRender finalize
  rw [renderF_sync env he fuel (.tpl t) d [], hs]
  simp [Except.map, settleAll, substitute_nil]

/-- Witness for C2: a concrete synchronous template (text, an escaped helper
value, a block helper) renders to the same string through both engines. -/
theorem claim_C2_witness :
    EnvSync syncSampleEnv ∧
    syncF syncSampleEnv 9 (.tpl [Node.text "hi", Node.hcall "syncS" [] true,
      Node.block "ifS" [] [Node.text "!"] []]) [] = .ok "hiS&amp;!" ∧
    asyncRender syncSampleEnv 9 [Node.text "hi", Node.hcall "syncS" [] true,
      Node.block "ifS" [] [Node.text "!"] []] [] = Future.resolved "hiS&amp;!" :=
  ⟨envSync_syncSampleEnv, rfl,
    claim_C2 syncSampleEnv 9
      [Node.text "hi", Node.hcall "syncS" [] true,
        Node.block "ifS" [] [Node.text "!"] []] [] "hiS&amp;!"
      envSync_syncSampleEnv rfl⟩

/-- Claim C3: partial invocation never returns a future to its caller.
(1) With the active ledger present, invoking a registered sub-template is
exactly a plain nested synchronous call on the same ledger (no new ledger, no
interception, result taken literally as a string); (2) hence a one-node
template invoking the sub-template renders exactly as the sub-template body
itself; (3) end to end, a template whose sub-template internally calls an
asynchronous helper still resolves to plain substituted text for the caller. -/
theorem claim_C3 :
    (∀ env f nm body d led, env.parts nm = some body →
      renderF env (f + 1) (.node (.pcall nm)) d led = renderF env f (.tpl body) d led) ∧
    (∀ env f nm body d, env.parts nm = some body →
      asyncRender env (f + 2) [Node.pcall nm] d =
        finalize env.pc (renderF env f (.tpl body) d [])) ∧
    asyncRender sampleEnv 9 [Node.text "A", Node.pcall "p", Node.text "B"] [] =
      Future.resolved "AXB" := by
  refine ⟨?_, ?_, ?_⟩
  · intro env f nm body d led hp
    simp [renderF, hp]
  · intro env f nm body d hp
    unfold asyncRender
    have h1 : renderF env (f + 2) (.tpl [Node.pcall nm]) d [] =
        renderF env f (.tpl body) d [] := by
      simp only [renderF, hp]
      cases h2 : renderF env f (.tpl body) d [] with
      | error e => simp [h2]
      | ok p => simp [h2]
    rw [h1]
  · rfl

/-- Witness for C3: the structural parts applied at the concrete sample
sub-template (whose body calls an asynchronous helper). -/
theorem claim_C3_witness :
    sampleEnv.parts "p" = some [Node.hcall "asyncX" [] true] ∧
    renderF sampleEnv 4 (.node (.pcall "p")) [] [] =
      renderF sampleEnv 3 (.tpl [Node.hcall "asyncX" [] true]) [] [] ∧
    asyncRender sampleEnv 5 [Node.pcall "p"] [] =
      finalize sampleEnv.pc (renderF sampleEnv 3 (.tpl [Node.hcall "asyncX" [] true]) [] []) :=
  ⟨rfl,
    claim_C3.1 sampleEnv 3 "p" [Node.hcall "asyncX" [] true] [] [] rfl,
    claim_C3.2.1 sampleEnv 3 "p" [Node.hcall "asyncX" [] true] [] rfl⟩

/-- Claim C4: codec round-trip and index ordering — decoding an encoded index
always returns the index; registration assigns index equal to the ledger's
current length and appends at the end (so, starting from the empty ledger of a
pass, indices are assigned 0, 1, 2, … in interception order); and the
synchronous pass only ever extends the ledger it was given (`led2 = led ++
tail`), never reordering or dropping entries.  Rendering is a function of the
template and input, hence deterministic. -/
theorem claim_C4 :
    (∀ pc i, decode pc (encode pc i) = some i) ∧
    (∀ led fp, (register led fp).1 = led.length ∧ (register led fp).2 = led ++ [fp]) ∧
    (∀ env f i d led s led2, renderF env f i d led = .ok (s, led2) →
      ∃ tail, led2 = led ++ tail) := by
  refine ⟨decode_encode, ?_, ?_⟩
  · intro led fp
    exact ⟨rfl, rfl⟩
  · intro env f i d led s led2 h
    exact renderF_extends env f i d led s led2 h

/-- Witness for C4: a pass starting from a one-entry ledger assigns the next
index 1 to the intercepted future and extends the ledger at the end. -/
theorem claim_C4_witness :
    decode defaultPlaceholder (encode defaultPlaceholder 12) = some 12 ∧
    renderF sampleEnv 3 (.tpl [Node.hcall "asyncX" [] false]) []
        [Future.resolved (PlainVal.str "q")] =
      .ok (encode defaultPlaceholder 1,
        [Future.resolved (PlainVal.str "q"), Future.resolved (PlainVal.str "X")]) ∧
    (∃ tail,
      ([Future.resolved (PlainVal.str "q"), Future.resolved (PlainVal.str "X")] : Ledger) =
        [Future.resolved (PlainVal.str "q")] ++ tail) :=
  ⟨claim_C4.1 defaultPlaceholder 12, rfl,
    claim_C4.2.2 sampleEnv 3 (.tpl [Node.hcall "asyncX" [] false]) []
      [Future.resolved (PlainVal.str "q")] (encode defaultPlaceholder 1)
      [Future.resolved (PlainVal.str "q"), Future.resolved (PlainVal.str "X")] rfl⟩

/-- Claim C5: escaping fidelity.  A helper resolving a future to a plain string
is HTML-escaped in the final output exactly where the template applied default
(double-brace) escaping and is left raw where the template marked it safe
(triple-brace), matching the synchronous engine's escaping of the same value
returned plainly; and the boundary character of an escaped placeholder
occurrence is recorded in its escaped form `&gt;`. -/
theorem claim_C5 (env env2 : Env) (nm : String) (v : String) (d : Data)
    (hpc : env.pc = defaultPlaceholder)
    (hh : env.helpers nm =
      some (fun _ => HelperRet.prom (Future.resolved (PlainVal.str v))))
    (hh2 : env2.helpers nm = some (fun _ => HelperRet.plain (PlainVal.str v))) :
    (asyncRender env 9 [Node.hcall nm [] true] d = .resolved (escapeExpression v) ∧
      asyncRender env 9 [Node.hcall nm [] false] d = .resolved v) ∧
    (syncF env2 9 (.tpl [Node.hcall nm [] true]) d = .ok (escapeExpression v) ∧
      syncF env2 9 (.tpl [Node.hcall nm [] false]) d = .ok v) ∧
    (∀ i, escapeExpression (encode defaultPlaceholder i) =
      String.mk (defaultPlaceholder :: (natToDec i ++ ['&', 'g', 't', ';']))) := by
  refine ⟨⟨?_, ?_⟩, ⟨?_, ?_⟩, ?_⟩
  · have h := asyncRender_hcall_async env nm (Future.resolved (PlainVal.str v))
      true d hpc hh
    simpa [escVal] using h
  · have h := asyncRender_hcall_async env nm (Future.resolved (PlainVal.str v))
      false d hpc hh
    simpa [strOf] using h
  · simp [syncF, syncArgF, hh2, emitPlain]
  · simp [syncF, syncArgF, hh2, emitPlain]
  · intro i
    exact escapeExpression_encode defaultPlaceholder (by decide) i

/-- Witness for C5: a value containing `<` is escaped at a double-brace
position, identically through the wrapped and the unwrapped engine. -/
theorem claim_C5_witness :
    sampleEnv.pc = defaultPlaceholder ∧
    sampleEnv.helpers "asyncAmp" =
      some (fun _ => HelperRet.prom (Future.resolved (PlainVal.str "a<b"))) ∧
    syncSampleEnv.helpers "asyncAmp" =
      some (fun _ => HelperRet.plain (PlainVal.str "a<b")) ∧
    asyncRender sampleEnv 9 [Node.hcall "asyncAmp" [] true] [] =
      .resolved (escapeExpression "a<b") ∧
    syncF syncSampleEnv 9 (.tpl [Node.hcall "asyncAmp" [] true]) [] =
      .ok (escapeExpression "a<b") :=
  ⟨rfl, rfl, rfl,
    (claim_C5 sampleEnv syncSampleEnv "asyncAmp" "a<b" [] rfl rfl rfl).1.1,
    (claim_C5 sampleEnv syncSampleEnv "asyncAmp" "a<b" [] rfl rfl rfl).2.1.1⟩

/-- Claim C6: fail-fast failure propagation.  If the synchronous render throws,
the pass's future fails with exactly that cause (the rejection is produced
directly from the synchronous error, before any future is consulted); if the
synchronous render succeeds but any registered future rejected, the pass's
future fails — it is a rejection, never a partially-substituted resolution. -/
theorem claim_C6 :
    (∀ env f t d e, renderF env f (.tpl t) d [] = .error e →
      asyncRender env f t d = .rejected e) ∧
    (∀ env f t d s led e, renderF env f (.tpl t) d [] = .ok (s, led) →
      Future.rejected e ∈ led → ∃ e2, asyncRender env f t d = .rejected e2) := by
  constructor
  · intro env f t d e h
    simp [asyncRender, finalize, h]
  · intro env f t d s led e h hmem
    obtain ⟨e2, he2⟩ := settleAll_mem_rejected led e hmem
    exact ⟨e2, by simp [asyncRender, finalize, h, he2]⟩

/-- Witness for C6: a missing-helper synchronous failure surfaces as the pass's
rejection, and a helper whose future rejects makes the whole pass reject. -/
theorem claim_C6_witness :
    renderF sampleEnv 9 (.tpl [Node.hcall "nosuch" [] true]) [] [] =
      .error "Missing helper: nosuch" ∧
    asyncRender sampleEnv 9 [Node.hcall "nosuch" [] true] [] =
      .rejected "Missing helper: nosuch" ∧
    renderF sampleEnv 9 (.tpl [Node.hcall "bad" [] false]) [] [] =
      .ok (encode defaultPlaceholder 0, [Future.rejected "boom"]) ∧
    Future.rejected "boom" ∈ ([Future.rejected "boom"] : Ledger) ∧
    (∃ e2, asyncRender sampleEnv 9 [Node.hcall "bad" [] false] [] = .rejected e2) :=
  ⟨rfl,
    claim_C6.1 sampleEnv 9 [Node.hcall "nosuch" [] true] []
      "Missing helper: nosuch" rfl,
    rfl, by simp,
    claim_C6.2 sampleEnv 9 [Node.hcall "bad" [] false] []
      (encode defaultPlaceholder 0) [Future.rejected "boom"] "boom" rfl (by simp)⟩

/-- Claim C7: asynchronous helper arguments (positional and hash) are resolved
before the enclosing helper runs — a helper call whose arguments are
asynchronous sub-expression results renders exactly as the same call with the
already-resolved final values passed as literal arguments, for every outer
helper; in particular the outer helper only ever receives the final,
non-placeholder values. -/
theorem claim_C7 (env : Env) (outer inner : String) (v : PlainVal) (esc : Bool)
    (d : Data) (hpc : env.pc = defaultPlaceholder)
    (hin : env.helpers inner = some (fun _ => HelperRet.prom (Future.resolved v))) :
    asyncRender env 9
        [Node.hcall outer [(none, Arg.sub inner []), (some "k", Arg.sub inner [])] esc]
        d =
      asyncRender env 9
        [Node.hcall outer [(none, Arg.lit v), (some "k", Arg.lit v)] esc] d := by
  cases houter : env.helpers outer with
  | none =>
    have hL : renderF env 9 (.tpl [Node.hcall outer
        [(none, Arg.sub inner []), (some "k", Arg.sub inner [])] esc]) d [] =
        .error ("Missing helper: " ++ outer) := by
      simp [renderF, evalArgF, hin, runHelper, allPlain, houter]
    have hR : renderF env 9 (.tpl [Node.hcall outer
        [(none, Arg.lit v), (some "k", Arg.lit v)] esc]) d [] =
        .error ("Missing helper: " ++ outer) := by
      simp [renderF, evalArgF, houter]
    unfold asyncRender
    rw [hL, hR]
  | some h =>
    cases hr : h [(none, v), (some "k", v)] with
    | prom g =>
      have hL : renderF env 9 (.tpl [Node.hcall outer
          [(none, Arg.sub inner []), (some "k", Arg.sub inner [])] esc]) d [] =
          .ok ((if esc then escapeExpression (encode env.pc 0) else encode env.pc 0),
            [g]) := by
        simp [renderF, evalArgF, hin, runHelper, allPlain, houter, settleArgList,
          retToFuture, Future.bind, Future.map, hr, emit, register]
      have hR : renderF env 9 (.tpl [Node.hcall outer
          [(none, Arg.lit v), (some "k", Arg.lit v)] esc]) d [] =
          .ok ((if esc then escapeExpression (encode env.pc 0) else encode env.pc 0),
            [g]) := by
        simp [renderF, evalArgF, houter, runHelper, allPlain, hr, emit, register]
      unfold asyncRender
      rw [hL, hR]
    | plain w =>
      have hL : renderF env 9 (.tpl [Node.hcall outer
          [(none, Arg.sub inner []), (some "k", Arg.sub inner [])] esc]) d [] =
          .ok ((if esc then escapeExpression (encode env.pc 0) else encode env.pc 0),
            [Future.resolved w]) := by
        simp [renderF, evalArgF, hin, runHelper, allPlain, houter, settleArgList,
          retToFuture, Future.bind, Future.map, hr, emit, register]
      have hR : renderF env 9 (.tpl [Node.hcall outer
          [(none, Arg.lit v), (some "k", Arg.lit v)] esc]) d [] =
          .ok (emitPlain esc w, []) := by
        simp [renderF, evalArgF, houter, runHelper, allPlain, hr, emit]
      unfold asyncRender
      rw [hL, hR, hpc]
      rw [finalize_single_token w esc]
      have hRfin : finalize defaultPlaceholder (.ok (emitPlain esc w, [])) =
          .resolved (emitPlain esc w) := by
        show Future.resolved (substitute defaultPlaceholder [] (emitPlain esc w)) = _
        rw [substitute_nil]
      rw [hRfin]
      cases esc <;> cases w <;> rfl

/-- Witness for C7: the sample `first` helper applied to asynchronous
sub-expression arguments renders as with the resolved literals and produces
the resolved value. -/
theorem claim_C7_witness :
    sampleEnv.helpers "asyncX" =
      some (fun _ => HelperRet.prom (Future.resolved (PlainVal.str "X"))) ∧
    asyncRender sampleEnv 9 [Node.hcall "first" [(none, Arg.sub "asyncX" []),
        (some "k", Arg.sub "asyncX" [])] true] [] =
      asyncRender sampleEnv 9 [Node.hcall "first" [(none, Arg.lit (PlainVal.str "X")),
        (some "k", Arg.lit (PlainVal.str "X"))] true] [] ∧
    asyncRender sampleEnv 9 [Node.hcall "first" [(none, Arg.lit (PlainVal.str "X")),
        (some "k", Arg.lit (PlainVal.str "X"))] true] [] = .resolved "X" :=
  ⟨rfl, claim_C7 sampleEnv "first" "asyncX" (PlainVal.str "X") true [] rfl rfl, rfl⟩

/-- Claim C8: ledger isolation.  The ambient active-ledger slot is reset to
"none" as soon as the synchronous phase ends; every invocation renders against
its own fresh ledger regardless of what the slot held; and two overlapping
invocations sequenced through the shared slot each resolve exactly to their own
independent output with no cross-substitution. -/
theorem claim_C8 (env : Env) (fuel : Nat) (tA tB : List Node) (dA dB : Data)
    (amb : Option Ledger) :
    (asyncRenderAmbient env fuel tA dA amb).2 = none ∧
    (asyncRenderAmbient env fuel tA dA amb).1 = asyncRender env fuel tA dA ∧
    runTwo env fuel tA dA tB dB amb =
      ((asyncRender env fuel tA dA, asyncRender env fuel tB dB), none) := by
  have key : ∀ t d (a : Option Ledger),
      asyncRenderAmbient env fuel t d a = (asyncRender env fuel t d, none) := by
    intro t d a
    unfold asyncRenderAmbient asyncRender finalize
    cases hx : renderF env fuel (.tpl t) d [] with
    | error e => simp [hx]
    | ok p =>
      obtain ⟨s, led⟩ := p
      cases hy : settleAll led <;> simp [hx, hy]
  refine ⟨by rw [key], by rw [key], ?_⟩
  simp [runTwo, key]

/-- Counterexample for C9 as stated: an options object carrying the key
`PromiseImplementation` is NOT honoured — the wrapped engine keeps the default
fan-in (`settleAll`, here succeeding on the empty ledger) instead of the
supplied capability (which would fail with "alt"). The recognised key, shown
by `examples/example.js`, is `Promise`. -/
theorem claim_C9_counterexample :
    (wrap [("PromiseImplementation",
        OptVal.promImpl ⟨fun _ => Except.error "alt"⟩)]).cap.all [] = .ok [] ∧
    (PromiseCap.mk fun _ => Except.error "alt").all [] = Except.error "alt" :=
  ⟨rfl, rfl⟩

/-- Claim C9 (amended): the exposed wrap entry point accepts an options object
recognising `placeholderChar` (a character overriding the default reserved
marker) and the key `Promise` (as in `examples/example.js`; not
`PromiseImplementation`) for the future constructor/combinator capability,
defaulting to the built-in fan-in; the returned engine instance honours those
options, and with defaults it renders exactly as the plain orchestrator. -/
theorem claim_C9 :
    (wrap []).pc = defaultPlaceholder ∧
    (∀ led, (wrap []).cap.all led = settleAll led) ∧
    (∀ c, (wrap [("placeholderChar", OptVal.ch c)]).pc = c) ∧
    (∀ cap, (wrap [("Promise", OptVal.promImpl cap)]).cap = cap) ∧
    (∀ env fuel t d, wrapRender (wrap []) env fuel t d =
      asyncRender { env with pc := defaultPlaceholder } fuel t d) := by
  refine ⟨rfl, fun led => rfl, fun c => rfl, fun cap => rfl, ?_⟩
  intro env fuel t d
  unfold wrapRender asyncRender
  cases hx : renderF { env with pc := defaultPlaceholder } fuel (.tpl t) d [] with
  | error e => simp [finalizeCap, finalize, hx, wrap, lookupOpt]
  | ok p =>
    obtain ⟨s, led⟩ := p
    cases hy : settleAll led <;>
      simp [finalizeCap, finalize, hx, hy, wrap, lookupOpt, settleAll]

/-- Claim C10: the reserved marker defaults to the control character `\u0001`;
every placeholder token begins with the marker in effect (escaped or not),
which is overridable through the options parameter; and a template already
containing the marker character makes helper values substitute at wrong places
(the documented, unchecked collision limitation): here the literal text
`\u00010>` aliases the helper's placeholder, so the value "X" is inserted
twice instead of once, yielding "XX". -/
theorem claim_C10 :
    defaultPlaceholder = Char.ofNat 1 ∧
    (wrap []).pc = Char.ofNat 1 ∧
    (∀ pc i, (encode pc i).data.head? = some pc) ∧
    (∀ c, (wrap [("placeholderChar", OptVal.ch c)]).pc = c) ∧
    (∀ fp led, ((emit defaultPlaceholder false (.prom fp) led).1).data.head? =
      some defaultPlaceholder ∧
      ((emit defaultPlaceholder true (.prom fp) led).1).data.head? =
        some defaultPlaceholder) ∧
    asyncRender sampleEnv 9
        [Node.text (String.mk [defaultPlaceholder, '0', '>']),
          Node.hcall "asyncX" [] false] [] = .resolved "XX" := by
  refine ⟨rfl, rfl, fun pc i => rfl, fun c => rfl, ?_, ?_⟩
  · intro fp led
    constructor
    · rfl
    · show (escapeExpression (encode defaultPlaceholder (register led fp).1)).data.head? =
        some defaultPlaceholder
      rw [escapeExpression_encode defaultPlaceholder (by decide)]
      rfl
  · rfl

end PromisedHB
